import Mathlib

/-!
Shallow embedding of `src/midterms/components/screens/Jobs.tsx`.

The screen holds its state in React `useState` hooks; we embed that state as
the structure `AppState` and each handler of the component as a pure function
on `AppState` (or on the plain data it reads).  JavaScript string primitives
used by the source (`trim`, `toLowerCase`, `includes`, the two regex literals,
`findIndex`, `splice`) are modelled as executable Lean functions over
`List Char` / `String`.
-/

/-- JavaScript whitespace characters relevant to `String.prototype.trim`
(space, tab, LF, CR, VT, FF, NBSP, BOM). -/
def jsWhitespace (c : Char) : Bool :=
  c == ' ' || c == '\t' || c == '\n' || c == '\r' ||
  c == Char.ofNat 11 || c == Char.ofNat 12 || c == Char.ofNat 160 || c == Char.ofNat 65279

/-- Model of JS `String.prototype.trim` on the character list: drop whitespace
from the front, then from the back. -/
def jsTrimList (cs : List Char) : List Char :=
  (((cs.dropWhile jsWhitespace).reverse).dropWhile jsWhitespace).reverse

/-- Model of JS `String.prototype.trim`. -/
def jsTrim (s : String) : String :=
  ⟨jsTrimList s.data⟩

/-- Model of JS `String.prototype.toLowerCase` on one character (ASCII case map;
the strings of this application are ASCII). -/
def lowerChar (c : Char) : Char :=
  if 'A' ≤ c ∧ c ≤ 'Z' then Char.ofNat (c.toNat + 32) else c

/-- Model of JS `String.prototype.toLowerCase`. -/
def toLowerCase (s : String) : String :=
  ⟨s.data.map lowerChar⟩

/-- `hasSubstr s pat` holds when `pat` occurs contiguously inside `s`
(the semantics of JS `String.prototype.includes`). -/
def hasSubstr : List Char → List Char → Bool
  | [], pat => pat.isEmpty
  | c :: rest, pat => pat.isPrefixOf (c :: rest) || hasSubstr rest pat

/-- Model of JS `s.includes(sub)`. -/
def includes (s sub : String) : Bool :=
  hasSubstr s.data sub.data

/-- Character class `[a-zA-Z0-9._%+-]` of the email regex. -/
def localChar (c : Char) : Bool :=
  c.isAlpha || c.isDigit || c == '.' || c == '_' || c == '%' || c == '+' || c == '-'

/-- Character class `[a-zA-Z0-9.-]` of the email regex. -/
def domainChar (c : Char) : Bool :=
  c.isAlpha || c.isDigit || c == '.' || c == '-'

/-- Split a character list at every occurrence of `sep` (the result is always
nonempty; `n` separators give `n+1` pieces, none containing `sep`). -/
def splitOnChar (sep : Char) : List Char → List (List Char)
  | [] => [[]]
  | c :: rest =>
    match splitOnChar sep rest with
    | [] => [[c]]
    | h :: t => if c == sep then [] :: h :: t else (c :: h) :: t

/-- Split a character list at its last `'.'`: `some (before, after)` when a dot
occurs, `none` otherwise. -/
def lastDotSplit : List Char → Option (List Char × List Char)
  | [] => none
  | c :: rest =>
    match lastDotSplit rest with
    | some (d, t) => some (c :: d, t)
    | none => if c == '.' then some ([], rest) else none

/-- Model of `/^[a-zA-Z0-9._%+-]+@[a-zA-Z0-9.-]+\.[a-zA-Z]{2,}$/.test(s)`.
Both character classes exclude `'@'`, so the regex matches exactly the strings
with a single `'@'` whose local part is a nonempty run of `localChar` and whose
remainder decomposes as `domain ++ "." ++ tld` with `domain` a nonempty run of
`domainChar` and `tld` at least two letters; since `tld` may not contain a dot,
the decomposing dot is necessarily the last dot of the remainder. -/
def emailTest (s : String) : Bool :=
  match splitOnChar '@' s.data with
  | [localPart, domainPart] =>
    (!localPart.isEmpty && localPart.all localChar) &&
    (match lastDotSplit domainPart with
     | some (d, t) => !d.isEmpty && d.all domainChar && decide (2 ≤ t.length) && t.all Char.isAlpha
     | none => false)
  | _ => false

/-- Model of `/^09\d{9}$/.test` on the character list: `'0'`, `'9'`, then
exactly nine digits. -/
def contactTestL (cs : List Char) : Bool :=
  match cs with
  | c0 :: c1 :: rest => c0 == '0' && c1 == '9' && rest.length == 9 && rest.all Char.isDigit
  | _ => false

/-- Model of `/^09\d{9}$/.test(s)`. -/
def contactTest (s : String) : Bool :=
  contactTestL s.data

/-- The `Job` interface of the source. -/
structure Job where
  id : String
  title : String
  companyName : String
  mainCategory : String
  jobType : String
  workModel : String
  seniorityLevel : String
deriving DecidableEq, Repr

/-- The `errors` state object of the form (empty string = no error). -/
structure ErrorsState where
  name : String
  email : String
  contactNumber : String
  whyHire : String
deriving DecidableEq, Repr

/-- The `useState` hooks of `JobsScreen`, plus `pendingClose`, which models a
pending `setTimeout(() => setModalVisible(false), 2000)` callback (the stored
number is the delay in milliseconds). -/
structure AppState where
  jobs : List Job
  filteredJobs : List Job
  searchTerm : String
  savedJobs : List Job
  modalVisible : Bool
  selectedJob : Option Job
  name : String
  email : String
  contactNumber : String
  whyHire : String
  feedbackMessage : String
  errors : ErrorsState
  isLoading : Bool
  pendingClose : Option Nat
deriving DecidableEq, Repr

/-- The initial state of every hook. -/
def initState : AppState :=
  { jobs := [], filteredJobs := [], searchTerm := "", savedJobs := [],
    modalVisible := false, selectedJob := none,
    name := "", email := "", contactNumber := "", whyHire := "",
    feedbackMessage := "", errors := ⟨"", "", "", ""⟩,
    isLoading := false, pendingClose := none }

/-- The body of `filterJobs`: keep the jobs whose lower-cased title or
lower-cased company name contains the lower-cased term. -/
def filterJobs (term : String) (jobs : List Job) : List Job :=
  jobs.filter (fun job =>
    includes (toLowerCase job.title) (toLowerCase term) ||
    includes (toLowerCase job.companyName) (toLowerCase term))

/-- `handleSearchChange`: store the text and refilter the currently held full
list. -/
def handleSearchChange (text : String) (s : AppState) : AppState :=
  { s with searchTerm := text, filteredJobs := filterJobs text s.jobs }

/-- The possible outcomes of the `fetch` in `fetchJobs`: a payload whose `jobs`
field parsed (already carrying the freshly generated ids), a payload without a
usable `jobs` field, or a thrown transport/parse error. -/
inductive FetchResult where
  | success (jobsWithIds : List Job)
  | noJobsField
  | transportFailure

/-- `fetchJobs`, as a function of the fetch outcome.  Returns the state after
the `finally` block together with the list of `Alert.alert(title, message)`
calls issued.  The `finally` clears `isLoading` in every case. -/
def fetchJobs (s : AppState) (r : FetchResult) : AppState × List (String × String) :=
  match r with
  | FetchResult.success jobsWithIds =>
    ({ s with jobs := jobsWithIds, filteredJobs := jobsWithIds, isLoading := false }, [])
  | FetchResult.noJobsField =>
    ({ s with isLoading := false }, [("Error", "No jobs found in the response.")])
  | FetchResult.transportFailure =>
    ({ s with isLoading := false }, [("Error", "Failed to fetch jobs.")])

/-- Model of JS `Array.prototype.findIndex`: index of the first element
satisfying `p`, `-1` when there is none. -/
def findIndex (p : Job → Bool) : List Job → Int
  | [] => -1
  | a :: l =>
    if p a then 0
    else
      let r := findIndex p l
      if r < 0 then -1 else r + 1

/-- `handleSaveJob`'s updater: look up the job's id with `findIndex`; if found,
`splice(jobIndex, 1)` (= `eraseIdx`), otherwise append the job. -/
def handleSaveJob (prevSavedJobs : List Job) (job : Job) : List Job :=
  let jobIndex := findIndex (fun savedJob => savedJob.id == job.id) prevSavedJobs
  if jobIndex ≥ 0 then prevSavedJobs.eraseIdx jobIndex.toNat
  else prevSavedJobs ++ [job]

/-- `handleApplyPress`: select the job, show the modal, clear the feedback
message (and nothing else). -/
def handleApplyPress (job : Job) (s : AppState) : AppState :=
  { s with selectedJob := some job, modalVisible := true, feedbackMessage := "" }

/-- `validateForm`: the four error slots and the `formIsValid` flag.  In the
source `formIsValid` is cleared exactly by the branches that assign an error
message, so it equals the conjunction of the four error slots being empty. -/
def validateForm (name email contactNumber whyHire : String) : ErrorsState × Bool :=
  let nameErr := if jsTrim name = "" then "Name is required." else ""
  let emailErr :=
    if jsTrim email = "" then "Email is required."
    else if emailTest email = false then "Please enter a valid email address."
    else ""
  let contactErr :=
    if jsTrim contactNumber = "" then "Contact number is required."
    else if contactTest contactNumber = false then
      "Please enter a valid contact number (11 digits starting with 09)."
    else ""
  let whyErr := if jsTrim whyHire = "" then "This field is required." else ""
  (⟨nameErr, emailErr, contactErr, whyErr⟩,
   nameErr == "" && emailErr == "" && contactErr == "" && whyErr == "")

/-- `handleSubmitApplication`: run `validateForm` (which stores the computed
errors); when valid, set the success feedback, clear the four fields, reset the
errors, and schedule the 2000 ms modal close; when invalid, only the computed
errors are stored. -/
def handleSubmitApplication (s : AppState) : AppState :=
  let r := validateForm s.name s.email s.contactNumber s.whyHire
  if r.snd then
    { s with errors := ⟨"", "", "", ""⟩,
             feedbackMessage := "Application submitted successfully!",
             name := "", email := "", contactNumber := "", whyHire := "",
             pendingClose := some 2000 }
  else
    { s with errors := r.fst }

/-- `handleCloseModal`: hide the modal and reset the four fields, the errors
and the feedback message. -/
def handleCloseModal (s : AppState) : AppState :=
  { s with modalVisible := false,
           name := "", email := "", contactNumber := "", whyHire := "",
           errors := ⟨"", "", "", ""⟩,
           feedbackMessage := "" }

/-- Firing of the pending `setTimeout` callback: it only runs
`setModalVisible(false)` (the timer is consumed). -/
def fireTimeout (s : AppState) : AppState :=
  match s.pendingClose with
  | some _ => { s with modalVisible := false, pendingClose := none }
  | none => s

/-- The user/environment events the screen reacts to. -/
inductive Event where
  | searchKeystroke (text : String)
  | fetchComplete (r : FetchResult)
  | applyPress (job : Job)
  | closeModal
  | typeName (v : String)
  | typeEmail (v : String)
  | typeContactNumber (v : String)
  | typeWhyHire (v : String)
  | submitApplication
  | timeoutFires
  | saveToggle (job : Job)

/-- One step of the screen: dispatch an event to its handler. -/
def step (s : AppState) : Event → AppState
  | Event.searchKeystroke text => handleSearchChange text s
  | Event.fetchComplete r => (fetchJobs s r).fst
  | Event.applyPress job => handleApplyPress job s
  | Event.closeModal => handleCloseModal s
  | Event.typeName v => { s with name := v }
  | Event.typeEmail v => { s with email := v }
  | Event.typeContactNumber v => { s with contactNumber := v }
  | Event.typeWhyHire v => { s with whyHire := v }
  | Event.submitApplication => handleSubmitApplication s
  | Event.timeoutFires => fireTimeout s
  | Event.saveToggle job => { s with savedJobs := handleSaveJob s.savedJobs job }

/-- Run a sequence of events. -/
def run (s : AppState) (es : List Event) : AppState :=
  es.foldl step s

/-- The filtered-list invariant claimed for the screen. -/
abbrev searchInv (s : AppState) : Prop :=
  s.filteredJobs = filterJobs s.searchTerm s.jobs

/-- Side condition of the amended C4 on one event: a successful fetch must
complete at a moment when the current search term filters the fetched list to
itself (in particular this holds whenever the term is still empty at fetch
completion); every other event is unrestricted. -/
def eventOk (s : AppState) : Event → Bool
  | Event.fetchComplete (FetchResult.success l) => decide (filterJobs s.searchTerm l = l)
  | _ => true

/-- Side condition of the amended C4 on a run. -/
def okRun : AppState → List Event → Bool
  | _, [] => true
  | s, e :: es => eventOk s e && okRun (step s e) es

/-! ## Substring machinery for the search filter -/

theorem hasSubstr_nil (s : List Char) : hasSubstr s [] = true := by
  cases s with
  | nil => rfl
  | cons c rest => rfl

theorem hasSubstr_iff (s pat : List Char) :
    hasSubstr s pat = true ↔ ∃ l r, s = l ++ pat ++ r := by
  induction s with
  | nil =>
    simp only [hasSubstr, List.isEmpty_iff]
    constructor
    · rintro rfl
      exact ⟨[], [], rfl⟩
    · rintro ⟨l, r, h⟩
      have h' := h.symm
      simp only [List.append_assoc, List.append_eq_nil] at h'
      exact h'.2.1
  | cons c rest ih =>
    simp only [hasSubstr, Bool.or_eq_true, List.isPrefixOf_iff_prefix, ih]
    constructor
    · rintro (⟨t, ht⟩ | ⟨l, r, hr⟩)
      · exact ⟨[], t, by simpa using ht.symm⟩
      · exact ⟨c :: l, r, by simp [hr]⟩
    · rintro ⟨l, r, h⟩
      cases l with
      | nil =>
        left
        exact ⟨r, by simpa using h.symm⟩
      | cons a l' =>
        right
        simp only [List.cons_append] at h
        injection h with h1 h2
        exact ⟨l', r, h2⟩

/-- C1: the search filter produces exactly the jobs of the held full list whose
lower-cased title or lower-cased company name contains the lower-cased search
term as a substring; the empty search term yields the full list unchanged. -/
theorem filterJobs_matches_spec (jobs : List Job) (term : String) :
    (∀ j, j ∈ filterJobs term jobs ↔
      (j ∈ jobs ∧
        ((∃ l r, (toLowerCase j.title).data = l ++ (toLowerCase term).data ++ r) ∨
         (∃ l r, (toLowerCase j.companyName).data = l ++ (toLowerCase term).data ++ r))))
  ∧ filterJobs "" jobs = jobs := by
  constructor
  · intro j
    simp [filterJobs, List.mem_filter, includes, Bool.or_eq_true, hasSubstr_iff]
  · unfold filterJobs
    rw [List.filter_eq_self]
    intro a _
    have h1 : (toLowerCase "").data = [] := rfl
    simp [includes, h1, hasSubstr_nil]

/-! ## Save-toggle machinery -/

/-- Recursive characterization of `handleSaveJob`: drop the first entry whose
id matches, or append the job at the end when none does. -/
def removeFirstOrAppend (l : List Job) (j : Job) : List Job :=
  match l with
  | [] => [j]
  | e :: rest => if e.id == j.id then rest else e :: removeFirstOrAppend rest j

theorem handleSaveJob_eq_removeFirstOrAppend (l : List Job) (j : Job) :
    handleSaveJob l j = removeFirstOrAppend l j := by
  induction l with
  | nil => rfl
  | cons e rest ih =>
    cases h : (e.id == j.id) with
    | true =>
      have hfi : findIndex (fun savedJob => savedJob.id == j.id) (e :: rest) = 0 := by
        simp [findIndex, h]
      simp [handleSaveJob, hfi, removeFirstOrAppend, h]
    | false =>
      by_cases hr : findIndex (fun savedJob => savedJob.id == j.id) rest < 0
      · have hfi : findIndex (fun savedJob => savedJob.id == j.id) (e :: rest) = -1 := by
          simp [findIndex, h, hr]
        have hrest : handleSaveJob rest j = rest ++ [j] := by
          have : ¬ (findIndex (fun savedJob => savedJob.id == j.id) rest ≥ 0) := by omega
          simp [handleSaveJob, this]
        rw [removeFirstOrAppend]
        simp only [h, Bool.false_eq_true, if_false]
        rw [← ih, hrest]
        simp [handleSaveJob, hfi]
      · have hge : findIndex (fun savedJob => savedJob.id == j.id) rest ≥ 0 := by omega
        have hfi : findIndex (fun savedJob => savedJob.id == j.id) (e :: rest) =
            findIndex (fun savedJob => savedJob.id == j.id) rest + 1 := by
          simp [findIndex, h, hr]
        have hrest : handleSaveJob rest j =
            rest.eraseIdx (findIndex (fun savedJob => savedJob.id == j.id) rest).toNat := by
          simp [handleSaveJob, hge]
        have htn : (findIndex (fun savedJob => savedJob.id == j.id) rest + 1).toNat =
            (findIndex (fun savedJob => savedJob.id == j.id) rest).toNat + 1 := by omega
        rw [removeFirstOrAppend]
        simp only [h, Bool.false_eq_true, if_false]
        rw [← ih, hrest]
        have hge1 : findIndex (fun savedJob => savedJob.id == j.id) rest + 1 ≥ 0 := by omega
        simp [handleSaveJob, hfi, hge1, htn, List.eraseIdx_cons_succ]

theorem removeFirstOrAppend_of_absent (l : List Job) (j : Job)
    (h : ∀ e ∈ l, e.id ≠ j.id) : removeFirstOrAppend l j = l ++ [j] := by
  induction l with
  | nil => rfl
  | cons e rest ih =>
    have he : (e.id == j.id) = false := by
      simp [h e (List.mem_cons_self e rest)]
    rw [removeFirstOrAppend]
    simp only [he, Bool.false_eq_true, if_false, List.cons_append]
    rw [ih (fun e' he' => h e' (List.mem_cons_of_mem e he'))]

theorem removeFirstOrAppend_append_self (l : List Job) (j : Job)
    (h : ∀ e ∈ l, e.id ≠ j.id) : removeFirstOrAppend (l ++ [j]) j = l := by
  induction l with
  | nil => simp [removeFirstOrAppend]
  | cons e rest ih =>
    have he : (e.id == j.id) = false := by
      simp [h e (List.mem_cons_self e rest)]
    rw [List.cons_append, removeFirstOrAppend]
    simp only [he, Bool.false_eq_true, if_false]
    rw [ih (fun e' he' => h e' (List.mem_cons_of_mem e he'))]

theorem mem_ids_removeFirstOrAppend (l : List Job) (j : Job) (x : String)
    (h : x ∈ (removeFirstOrAppend l j).map Job.id) : x ∈ l.map Job.id ∨ x = j.id := by
  induction l with
  | nil =>
    simp only [removeFirstOrAppend, List.map_cons, List.map_nil, List.mem_singleton] at h
    exact Or.inr h
  | cons e rest ih =>
    rw [removeFirstOrAppend] at h
    cases he : (e.id == j.id) with
    | true =>
      simp only [he, if_true] at h
      exact Or.inl (by simp [List.mem_cons]; right; simpa using h)
    | false =>
      simp only [he, Bool.false_eq_true, if_false, List.map_cons, List.mem_cons] at h
      rcases h with h | h
      · exact Or.inl (by simp [h])
      · rcases ih h with h' | h'
        · exact Or.inl (by simp [List.mem_cons]; right; simpa using h')
        · exact Or.inr h'

theorem mem_ids_removeFirstOrAppend_of_mem (l : List Job) (j : Job)
    (hnd : (l.map Job.id).Nodup) (hm : j.id ∈ l.map Job.id) (x : String) :
    x ∈ (removeFirstOrAppend l j).map Job.id ↔ (x ∈ l.map Job.id ∧ x ≠ j.id) := by
  induction l with
  | nil => simp at hm
  | cons e rest ih =>
    simp only [List.map_cons, List.nodup_cons] at hnd
    rw [removeFirstOrAppend]
    cases he : (e.id == j.id) with
    | true =>
      have heq : e.id = j.id := by simpa using he
      simp only [if_true, List.map_cons, List.mem_cons]
      constructor
      · intro hx
        refine ⟨Or.inr hx, ?_⟩
        intro hxj
        exact hnd.1 (by rw [heq, ← hxj]; exact hx)
      · rintro ⟨hx | hx, hxj⟩
        · exact absurd (hx.trans heq) hxj
        · exact hx
    | false =>
      have hne : e.id ≠ j.id := by simpa using he
      have hm' : j.id ∈ rest.map Job.id := by
        rcases List.mem_cons.mp hm with h | h
        · exact absurd h.symm hne
        · exact h
      simp only [Bool.false_eq_true, if_false, List.map_cons, List.mem_cons]
      rw [ih hnd.2 hm']
      constructor
      · rintro (rfl | ⟨hx, hxj⟩)
        · exact ⟨Or.inl rfl, hne⟩
        · exact ⟨Or.inr hx, hxj⟩
      · rintro ⟨hx | hx, hxj⟩
        · exact Or.inl hx
        · exact Or.inr ⟨hx, hxj⟩

theorem nodup_removeFirstOrAppend (l : List Job) (j : Job)
    (h : (l.map Job.id).Nodup) : ((removeFirstOrAppend l j).map Job.id).Nodup := by
  induction l with
  | nil => simp [removeFirstOrAppend]
  | cons e rest ih =>
    simp only [List.map_cons, List.nodup_cons] at h
    rw [removeFirstOrAppend]
    cases he : (e.id == j.id) with
    | true => simpa using h.2
    | false =>
      simp only [Bool.false_eq_true, if_false, List.map_cons, List.nodup_cons]
      refine ⟨?_, ih h.2⟩
      intro hc
      rcases mem_ids_removeFirstOrAppend rest j e.id hc with h' | h'
      · exact h.1 h'
      · exact absurd h' (by simpa using he)

theorem removeFirstOrAppend_of_present (l : List Job) (j : Job)
    (h : ∃ e ∈ l, e.id = j.id) :
    ∃ l₁ e l₂, e.id = j.id ∧ l = l₁ ++ e :: l₂ ∧ removeFirstOrAppend l j = l₁ ++ l₂ := by
  induction l with
  | nil => simp at h
  | cons a rest ih =>
    cases ha : (a.id == j.id) with
    | true =>
      refine ⟨[], a, rest, by simpa using ha, rfl, ?_⟩
      rw [removeFirstOrAppend]
      simp [ha]
    | false =>
      have hane : a.id ≠ j.id := by simpa using ha
      have h' : ∃ e ∈ rest, e.id = j.id := by
        rcases h with ⟨e, he, hide⟩
        rcases List.mem_cons.mp he with rfl | he'
        · exact absurd hide hane
        · exact ⟨e, he', hide⟩
      obtain ⟨l₁, e, l₂, hid, hsplit, heq⟩ := ih h'
      refine ⟨a :: l₁, e, l₂, hid, by rw [List.cons_append, hsplit], ?_⟩
      rw [removeFirstOrAppend]
      simp only [ha, Bool.false_eq_true, if_false, heq, List.cons_append]

theorem ids_double_toggle (l : List Job) (j : Job)
    (hnd : (l.map Job.id).Nodup) (x : String) :
    x ∈ (removeFirstOrAppend (removeFirstOrAppend l j) j).map Job.id ↔ x ∈ l.map Job.id := by
  by_cases hm : j.id ∈ l.map Job.id
  · have h1 := mem_ids_removeFirstOrAppend_of_mem l j hnd hm
    have h2 : ∀ e ∈ removeFirstOrAppend l j, e.id ≠ j.id := by
      intro e he hid
      exact ((h1 j.id).mp (List.mem_map.mpr ⟨e, he, hid⟩)).2 rfl
    rw [removeFirstOrAppend_of_absent _ j h2, List.map_append, List.mem_append]
    constructor
    · rintro (hx | hx)
      · exact ((h1 x).mp hx).1
      · simp only [List.map_cons, List.map_nil, List.mem_singleton] at hx
        rw [hx]; exact hm
    · intro hx
      by_cases hxj : x = j.id
      · right; simp [hxj]
      · left; exact (h1 x).mpr ⟨hx, hxj⟩
  · have habs : ∀ e ∈ l, e.id ≠ j.id := by
      intro e he hid
      exact hm (List.mem_map.mpr ⟨e, he, hid⟩)
    rw [removeFirstOrAppend_of_absent l j habs, removeFirstOrAppend_append_self l j habs]

/-- Conclusion of the toggle claim: when the job's id is absent the full record
is appended (adding exactly one entry); when present the (unique) matching
entry is removed; toggling twice restores the original id-membership. -/
def toggleProp (l : List Job) (j : Job) : Prop :=
  ((∀ e ∈ l, e.id ≠ j.id) →
      handleSaveJob l j = l ++ [j] ∧ (handleSaveJob l j).length = l.length + 1)
  ∧ ((∃ e ∈ l, e.id = j.id) →
      ∃ l₁ e l₂, e.id = j.id ∧ l = l₁ ++ e :: l₂ ∧ handleSaveJob l j = l₁ ++ l₂)
  ∧ (∀ x, x ∈ (handleSaveJob (handleSaveJob l j) j).map Job.id ↔ x ∈ l.map Job.id)

/-- C2: toggling save removes the entry whose id matches when one is present
and appends the full job record otherwise; toggling the same job twice returns
the saved set to its original membership, and toggling an absent job adds
exactly one entry.  (Saved sets reachable in the program have pairwise distinct
ids; see the C10 theorem.) -/
theorem handleSaveJob_toggle_spec (l : List Job) (j : Job)
    (h : (l.map Job.id).Nodup) : toggleProp l j := by
  unfold toggleProp
  simp only [handleSaveJob_eq_removeFirstOrAppend]
  refine ⟨?_, ?_, ?_⟩
  · intro habs
    have heq := removeFirstOrAppend_of_absent l j habs
    exact ⟨heq, by rw [heq]; simp⟩
  · intro hpres
    exact removeFirstOrAppend_of_present l j hpres
  · exact ids_double_toggle l j h

theorem handleSaveJob_toggle_spec_witness :
    ((([⟨"1", "t", "c", "m", "j", "w", "s"⟩] : List Job).map Job.id).Nodup) ∧
      toggleProp [⟨"1", "t", "c", "m", "j", "w", "s"⟩] ⟨"2", "u", "d", "n", "k", "x", "z"⟩ :=
  ⟨by decide, handleSaveJob_toggle_spec _ _ (by decide)⟩

/-- C10: starting from the empty saved set, any sequence of save toggles keeps
the saved-jobs ids pairwise distinct. -/
theorem saved_jobs_ids_nodup (seq : List Job) :
    ((seq.foldl handleSaveJob ([] : List Job)).map Job.id).Nodup := by
  suffices h : ∀ (seq : List Job) (l : List Job), (l.map Job.id).Nodup →
      ((seq.foldl handleSaveJob l).map Job.id).Nodup by
    exact h seq [] (by simp)
  intro seq
  induction seq with
  | nil => intro l hl; simpa using hl
  | cons a rest ih =>
    intro l hl
    rw [List.foldl_cons]
    exact ih _ (by rw [handleSaveJob_eq_removeFirstOrAppend]; exact nodup_removeFirstOrAppend l a hl)

/-- C3: the loading flag is cleared on every fetch completion; a payload
without a usable `jobs` field surfaces the "no jobs" alert and leaves both
lists unchanged; a transport failure surfaces the distinct "failed to fetch"
alert and also leaves the lists unchanged. -/
theorem fetchJobs_outcome_spec (s : AppState) (r : FetchResult) :
    ((fetchJobs s r).fst.isLoading = false)
  ∧ ((fetchJobs s FetchResult.noJobsField).snd = [("Error", "No jobs found in the response.")]
      ∧ (fetchJobs s FetchResult.noJobsField).fst.jobs = s.jobs
      ∧ (fetchJobs s FetchResult.noJobsField).fst.filteredJobs = s.filteredJobs)
  ∧ ((fetchJobs s FetchResult.transportFailure).snd = [("Error", "Failed to fetch jobs.")]
      ∧ (fetchJobs s FetchResult.transportFailure).fst.jobs = s.jobs
      ∧ (fetchJobs s FetchResult.transportFailure).fst.filteredJobs = s.filteredJobs)
  ∧ ("No jobs found in the response." : String) ≠ "Failed to fetch jobs." := by
  refine ⟨?_, by simp [fetchJobs], by simp [fetchJobs], by decide⟩
  cases r <;> simp [fetchJobs]

/-! ## The filtered-list invariant (C4) -/

/-- C4 as stated is false: a fetch that completes after a keystroke overwrites
the filtered list with the full fetched list without re-applying the current
search term.  Concretely, typing "x" and then receiving one job whose title and
company do not contain "x" leaves `filteredJobs = [job] ≠ filterJobs "x" [job] = []`. -/
theorem filtered_invariant_counterexample :
    ¬ searchInv (run initState
      [Event.searchKeystroke "x",
       Event.fetchComplete (FetchResult.success [⟨"1", "a", "b", "c", "d", "e", "f"⟩])]) := by
  decide

theorem searchInv_run_of_okRun (es : List Event) :
    ∀ s : AppState, searchInv s → okRun s es = true → searchInv (run s es) := by
  induction es with
  | nil => intro s hs _; simpa [run] using hs
  | cons e rest ih =>
    intro s hs hok
    rw [okRun, Bool.and_eq_true] at hok
    have hstep : searchInv (step s e) := by
      cases e with
      | searchKeystroke text => simp [step, handleSearchChange, searchInv]
      | fetchComplete r =>
        cases r with
        | success l =>
          have hcond : filterJobs s.searchTerm l = l := by
            have := hok.1
            simpa [eventOk] using this
          simp [step, fetchJobs, searchInv, hcond]
        | noJobsField => simpa [step, fetchJobs, searchInv] using hs
        | transportFailure => simpa [step, fetchJobs, searchInv] using hs
      | applyPress job => simpa [step, handleApplyPress, searchInv] using hs
      | closeModal => simpa [step, handleCloseModal, searchInv] using hs
      | typeName v => simpa [step, searchInv] using hs
      | typeEmail v => simpa [step, searchInv] using hs
      | typeContactNumber v => simpa [step, searchInv] using hs
      | typeWhyHire v => simpa [step, searchInv] using hs
      | submitApplication =>
        by_cases hv : (validateForm s.name s.email s.contactNumber s.whyHire).snd
        · simpa [step, handleSubmitApplication, hv, searchInv] using hs
        · simpa [step, handleSubmitApplication, hv, searchInv] using hs
      | timeoutFires =>
        cases hp : s.pendingClose with
        | some n => simpa [step, fireTimeout, hp, searchInv] using hs
        | none => simpa [step, fireTimeout, hp, searchInv] using hs
      | saveToggle job => simpa [step, searchInv] using hs
    have : run s (e :: rest) = run (step s e) rest := by
      simp [run]
    rw [this]
    exact ih (step s e) hstep hok.2

/-- C4 (amended): the filtered list equals the filter of the current search
term applied to the current full list in every state reached by a run in which
each successful fetch completes while the current term filters the fetched
list to itself (e.g. while the term is still empty); without that side
condition the invariant fails, see the counterexample. -/
theorem filtered_invariant_conditional (es : List Event)
    (h : okRun initState es = true) : searchInv (run initState es) := by
  have hinit : searchInv initState := rfl
  exact searchInv_run_of_okRun es initState hinit h

theorem filtered_invariant_conditional_witness :
    okRun initState
        [Event.fetchComplete (FetchResult.success [⟨"1", "a", "b", "c", "d", "e", "f"⟩]),
         Event.searchKeystroke "a"] = true
      ∧ searchInv (run initState
        [Event.fetchComplete (FetchResult.success [⟨"1", "a", "b", "c", "d", "e", "f"⟩]),
         Event.searchKeystroke "a"]) :=
  ⟨by decide, filtered_invariant_conditional _ (by decide)⟩

/-! ## Opening and closing the application form (C5) -/

/-- C5 as stated is false: `handleApplyPress` resets only the feedback message,
not the four fields or the errors.  The stale state is reachable: submit a
valid application (which clears the fields and schedules the close), type into
the name field during the 2-second window, let the timeout close the modal,
then press Apply on another job — the form opens with the leftover name. -/
theorem apply_press_no_reset_counterexample :
    (handleApplyPress ⟨"2", "u", "d", "n", "k", "x", "z"⟩ (run initState
      [Event.fetchComplete (FetchResult.success
         [⟨"1", "t", "c", "m", "j", "w", "s"⟩, ⟨"2", "u", "d", "n", "k", "x", "z"⟩]),
       Event.applyPress ⟨"1", "t", "c", "m", "j", "w", "s"⟩,
       Event.typeName "A",
       Event.typeEmail "a@b.co",
       Event.typeContactNumber "09171234567",
       Event.typeWhyHire "because",
       Event.submitApplication,
       Event.typeName "B",
       Event.timeoutFires])).name = "B"
    ∧ ("B" : String) ≠ "" := by
  decide

/-- C5 (amended): opening the form resets only the feedback message; it is the
explicit close that resets all four fields, the field errors and the feedback,
so opening Apply on job A, typing partial data, closing, and reopening Apply on
job B shows a fully empty form. -/
theorem close_then_apply_shows_empty_form (s : AppState) (jobB : Job) :
    ((handleApplyPress jobB (handleCloseModal s)).name = ""
      ∧ (handleApplyPress jobB (handleCloseModal s)).email = ""
      ∧ (handleApplyPress jobB (handleCloseModal s)).contactNumber = ""
      ∧ (handleApplyPress jobB (handleCloseModal s)).whyHire = ""
      ∧ (handleApplyPress jobB (handleCloseModal s)).errors = ⟨"", "", "", ""⟩
      ∧ (handleApplyPress jobB (handleCloseModal s)).feedbackMessage = ""
      ∧ (handleApplyPress jobB (handleCloseModal s)).modalVisible = true
      ∧ (handleApplyPress jobB (handleCloseModal s)).selectedJob = some jobB)
    ∧ (handleApplyPress jobB s).feedbackMessage = ""
    ∧ (handleApplyPress jobB s).name = s.name
    ∧ (handleApplyPress jobB s).email = s.email
    ∧ (handleApplyPress jobB s).contactNumber = s.contactNumber
    ∧ (handleApplyPress jobB s).whyHire = s.whyHire
    ∧ (handleApplyPress jobB s).errors = s.errors := by
  simp [handleApplyPress, handleCloseModal]

/-! ## Form validation (C6, C8, C9) -/

theorem validateForm_name_slot (n e c w : String) :
    (validateForm n e c w).fst.name = "" ↔ jsTrim n ≠ "" := by
  by_cases h : jsTrim n = ""
  · simp [validateForm, h, (by decide : ("Name is required." : String) ≠ "")]
  · simp [validateForm, h]

theorem validateForm_email_slot (n e c w : String) :
    (validateForm n e c w).fst.email = "" ↔ (jsTrim e ≠ "" ∧ emailTest e = true) := by
  by_cases h1 : jsTrim e = ""
  · simp [validateForm, h1, (by decide : ("Email is required." : String) ≠ "")]
  · cases h2 : emailTest e
    · simp [validateForm, h1, h2,
        (by decide : ("Please enter a valid email address." : String) ≠ "")]
    · simp [validateForm, h1, h2]

theorem validateForm_contact_slot (n e c w : String) :
    (validateForm n e c w).fst.contactNumber = "" ↔ (jsTrim c ≠ "" ∧ contactTest c = true) := by
  by_cases h1 : jsTrim c = ""
  · simp [validateForm, h1, (by decide : ("Contact number is required." : String) ≠ "")]
  · cases h2 : contactTest c
    · simp [validateForm, h1, h2,
        (by decide : ("Please enter a valid contact number (11 digits starting with 09)." : String) ≠ "")]
    · simp [validateForm, h1, h2]

theorem validateForm_whyHire_slot (n e c w : String) :
    (validateForm n e c w).fst.whyHire = "" ↔ jsTrim w ≠ "" := by
  by_cases h : jsTrim w = ""
  · simp [validateForm, h, (by decide : ("This field is required." : String) ≠ "")]
  · simp [validateForm, h]

theorem validateForm_snd_iff_slots (n e c w : String) :
    (validateForm n e c w).snd = true ↔
      ((validateForm n e c w).fst.name = "" ∧ (validateForm n e c w).fst.email = "" ∧
       (validateForm n e c w).fst.contactNumber = "" ∧ (validateForm n e c w).fst.whyHire = "") := by
  simp only [validateForm, Bool.and_eq_true, beq_iff_eq]
  tauto

/-- C6: all four validation rules run together on submit — the result is valid
iff every field passes its rule, each error slot is empty iff its own field
passes (so exactly the invalid fields carry a non-empty message), and an
invalid submit changes nothing but the stored errors (in particular the modal
stays open and the typed fields are kept). -/
theorem validateForm_submit_characterization (n e c w : String) (s : AppState) :
    (((validateForm n e c w).snd = true) ↔
      (jsTrim n ≠ "" ∧ (jsTrim e ≠ "" ∧ emailTest e = true) ∧
        (jsTrim c ≠ "" ∧ contactTest c = true) ∧ jsTrim w ≠ ""))
  ∧ ((validateForm n e c w).fst.name = "" ↔ jsTrim n ≠ "")
  ∧ ((validateForm n e c w).fst.email = "" ↔ (jsTrim e ≠ "" ∧ emailTest e = true))
  ∧ ((validateForm n e c w).fst.contactNumber = "" ↔ (jsTrim c ≠ "" ∧ contactTest c = true))
  ∧ ((validateForm n e c w).fst.whyHire = "" ↔ jsTrim w ≠ "")
  ∧ ((validateForm s.name s.email s.contactNumber s.whyHire).snd = false →
      handleSubmitApplication s =
        { s with errors := (validateForm s.name s.email s.contactNumber s.whyHire).fst }) := by
  refine ⟨?_, validateForm_name_slot n e c w, validateForm_email_slot n e c w,
    validateForm_contact_slot n e c w, validateForm_whyHire_slot n e c w, ?_⟩
  · rw [validateForm_snd_iff_slots, validateForm_name_slot n e c w,
      validateForm_email_slot n e c w, validateForm_contact_slot n e c w,
      validateForm_whyHire_slot n e c w]
  · intro h
    simp [handleSubmitApplication, h]

/-- C7: submitting with all four fields valid stores the fixed success
message, clears the four fields and all error slots immediately (the modal
visibility is untouched at that moment, so the cleared fields show while the
modal is still open), schedules the close with the fixed 2000 ms delay, and
when that timeout fires the modal is closed. -/
theorem submit_valid_success_flow (s : AppState)
    (h : (validateForm s.name s.email s.contactNumber s.whyHire).snd = true) :
    (handleSubmitApplication s).feedbackMessage = "Application submitted successfully!"
  ∧ (handleSubmitApplication s).name = ""
  ∧ (handleSubmitApplication s).email = ""
  ∧ (handleSubmitApplication s).contactNumber = ""
  ∧ (handleSubmitApplication s).whyHire = ""
  ∧ (handleSubmitApplication s).errors = ⟨"", "", "", ""⟩
  ∧ (handleSubmitApplication s).modalVisible = s.modalVisible
  ∧ (handleSubmitApplication s).pendingClose = some 2000
  ∧ (fireTimeout (handleSubmitApplication s)).modalVisible = false
  ∧ (fireTimeout (handleSubmitApplication s)).pendingClose = none := by
  simp [handleSubmitApplication, h, fireTimeout]

/-- A concrete open-modal state with all four fields valid (used by the C7
witness only). -/
def submitDemoState : AppState :=
  { initState with
      modalVisible := true,
      name := "Ana",
      email := "a@b.co",
      contactNumber := "09171234567",
      whyHire := "because" }

theorem submit_valid_success_flow_witness :
    ((validateForm submitDemoState.name submitDemoState.email
        submitDemoState.contactNumber submitDemoState.whyHire).snd = true)
  ∧ ((handleSubmitApplication submitDemoState).feedbackMessage =
        "Application submitted successfully!"
    ∧ (handleSubmitApplication submitDemoState).name = ""
    ∧ (handleSubmitApplication submitDemoState).email = ""
    ∧ (handleSubmitApplication submitDemoState).contactNumber = ""
    ∧ (handleSubmitApplication submitDemoState).whyHire = ""
    ∧ (handleSubmitApplication submitDemoState).errors = ⟨"", "", "", ""⟩
    ∧ (handleSubmitApplication submitDemoState).modalVisible = submitDemoState.modalVisible
    ∧ (handleSubmitApplication submitDemoState).pendingClose = some 2000
    ∧ (fireTimeout (handleSubmitApplication submitDemoState)).modalVisible = false
    ∧ (fireTimeout (handleSubmitApplication submitDemoState)).pendingClose = none) :=
  ⟨by decide, submit_valid_success_flow submitDemoState (by decide)⟩

theorem jsWhitespace_eq_false_of_isDigit (c : Char) (h : c.isDigit = true) :
    jsWhitespace c = false := by
  cases hw : jsWhitespace c
  · rfl
  · exfalso
    unfold jsWhitespace at hw
    simp only [Bool.or_eq_true, beq_iff_eq] at hw
    rcases hw with (((((((rfl | rfl) | rfl) | rfl) | rfl) | rfl) | rfl) | rfl) <;>
      exact absurd h (by decide)

theorem dropWhile_eq_self_of_all_false (p : Char → Bool) (l : List Char)
    (h : ∀ c ∈ l, p c = false) : l.dropWhile p = l := by
  cases l with
  | nil => rfl
  | cons c t => simp [List.dropWhile_cons, h c (List.mem_cons_self c t)]

theorem jsTrimList_eq_self (cs : List Char) (h : ∀ c ∈ cs, jsWhitespace c = false) :
    jsTrimList cs = cs := by
  unfold jsTrimList
  rw [dropWhile_eq_self_of_all_false _ cs h,
    dropWhile_eq_self_of_all_false _ cs.reverse (fun c hc => h c (List.mem_reverse.mp hc))]
  exact List.reverse_reverse cs

/-- C8: contact-number validation accepts a string iff it is exactly `"09"`
followed by nine digits; in particular it accepts `"09171234567"` and rejects
`"9171234567"`, `"091712345"`, `"08171234567"`, and the empty string. -/
theorem contact_validation_characterization (n e w s : String) :
    ((validateForm n e s w).fst.contactNumber = "" ↔
       ∃ ds : List Char, s.data = '0' :: '9' :: ds ∧ ds.length = 9 ∧ ∀ c ∈ ds, c.isDigit = true)
  ∧ (validateForm n e "09171234567" w).fst.contactNumber = ""
  ∧ (validateForm n e "9171234567" w).fst.contactNumber ≠ ""
  ∧ (validateForm n e "091712345" w).fst.contactNumber ≠ ""
  ∧ (validateForm n e "08171234567" w).fst.contactNumber ≠ ""
  ∧ (validateForm n e "" w).fst.contactNumber ≠ "" := by
  refine ⟨?_, ?_, ?_, ?_, ?_, ?_⟩
  · rw [validateForm_contact_slot n e s w]
    constructor
    · rintro ⟨-, ht⟩
      rw [contactTest] at ht
      cases hsd : s.data with
      | nil => rw [hsd] at ht; simp [contactTestL] at ht
      | cons c0 tl =>
        cases tl with
        | nil => rw [hsd] at ht; simp [contactTestL] at ht
        | cons c1 rest =>
          rw [hsd] at ht
          simp only [contactTestL, Bool.and_eq_true, beq_iff_eq, List.all_eq_true] at ht
          obtain ⟨⟨⟨h0, h1⟩, hlen⟩, hdig⟩ := ht
          subst h0; subst h1
          exact ⟨rest, rfl, hlen, hdig⟩
    · rintro ⟨ds, hsd, hlen, hdig⟩
      have hall : ∀ c ∈ s.data, jsWhitespace c = false := by
        rw [hsd]
        intro c hc
        rcases List.mem_cons.mp hc with rfl | hc'
        · decide
        · rcases List.mem_cons.mp hc' with rfl | hc''
          · decide
          · exact jsWhitespace_eq_false_of_isDigit c (hdig c hc'')
      constructor
      · intro hemp
        have hdata : jsTrimList s.data = ("" : String).data := congrArg String.data hemp
        rw [jsTrimList_eq_self s.data hall, hsd] at hdata
        simp at hdata
      · rw [contactTest, hsd]
        simp [contactTestL, hlen, List.all_eq_true]
        exact hdig
  · exact (validateForm_contact_slot n e "09171234567" w).mpr (by decide)
  · intro h
    have := (validateForm_contact_slot n e "9171234567" w).mp h
    revert this; decide
  · intro h
    have := (validateForm_contact_slot n e "091712345" w).mp h
    revert this; decide
  · intro h
    have := (validateForm_contact_slot n e "08171234567" w).mp h
    revert this; decide
  · intro h
    have := (validateForm_contact_slot n e "" w).mp h
    revert this; decide

/-- C9: email validation accepts `"a@b.co"` and rejects `"a@b"` (no dot after
the `@`), `"a.com"` (no `@`), and the empty string, which triggers the
required-field message. -/
theorem email_validation_vectors :
    (validateForm "x" "a@b.co" "09171234567" "x").fst.email = ""
  ∧ (validateForm "x" "a@b" "09171234567" "x").fst.email ≠ ""
  ∧ (validateForm "x" "a.com" "09171234567" "x").fst.email ≠ ""
  ∧ (validateForm "x" "" "09171234567" "x").fst.email = "Email is required." := by
  decide
